import Mathlib

/-!
Shallow embedding of the engagement/gamification core of `src/app.py`
(career-guidance web application): content moderation, rate-limited post
likes and company votes, points/badges, post deletion with favorite
cleanup, private-message conversations, and offer likes.

Python values are modelled as follows: `str` as `String` (or `List Char`
where character-level structure matters), `int` counters as `Nat`
(`max(0, n - 1)` coincides with `Nat` subtraction), `datetime` as a
`Time` structure carrying a day index and a time-of-day, dictionaries as
association lists (`List (key × value)`) or as total functions with a
default, matching how the code lazily inserts empty sub-dicts.
-/

/-- A point in time: calendar day index plus time within the day.
`datetime.now()` values are compared with `>=`, and
`now.replace(hour=0, minute=0, second=0, microsecond=0)` is the start of
`now`'s day. -/
structure Time where
  day : Nat
  tod : Nat
deriving DecidableEq, Repr

/-- Lexicographic `<=` on timestamps, as Python compares `datetime`s. -/
def Time.le (a b : Time) : Bool :=
  decide (a.day < b.day) || (decide (a.day = b.day) && decide (a.tod ≤ b.tod))

/-- `now.replace(hour=0, minute=0, second=0, microsecond=0)`. -/
def startOfDay (t : Time) : Time := ⟨t.day, 0⟩

theorem startOfDay_le_iff (now t : Time) :
    Time.le (startOfDay now) t = true ↔ now.day ≤ t.day := by
  simp only [Time.le, startOfDay, Bool.or_eq_true, Bool.and_eq_true, decide_eq_true_eq]
  omega

/-- Pointwise update of a total-function representation of a Python dict
(`d[k] = v`). -/
def updFun {β : Type} (f : String → β) (k : String) (v : β) : String → β :=
  fun x => if x = k then v else f x

/-- Python `d.get(k)` / `k in d` lookup on an association-list dict. -/
def dictLookup (l : List (String × Time)) (k : String) : Option Time :=
  (l.find? (fun e => e.1 == k)).map (·.2)

/-- Python `d[k] = v` on an association-list dict: overwrite in place if
the key is present, otherwise append. -/
def dictInsert (l : List (String × Time)) (k : String) (v : Time) :
    List (String × Time) :=
  if l.any (fun e => e.1 == k) then
    l.map (fun e => if e.1 == k then (k, v) else e)
  else l ++ [(k, v)]

/-- Python `del d[k]` on an association-list dict (keys are unique in
every dict the code builds, so erasing the first occurrence is `del`). -/
def dictErase (l : List (String × Time)) (k : String) : List (String × Time) :=
  l.eraseP (fun e => e.1 == k)

/-! ## Content moderation (`PROHIBITED_WORDS`, `check_content_moderation`) -/

/-- `PROHIBITED_WORDS` from `src/app.py`. -/
def PROHIBITED_WORDS : List String :=
  ["广告", "微信", "加我", "买卖", "代写", "代考", "赚钱", "兼职刷单", "招代理"]

/-- Python's `w in t` substring test on strings: some contiguous run of
`t`'s characters equals `w`. -/
def strContains (t w : String) : Bool :=
  t.data.tails.any (fun s => w.data.isPrefixOf s)

theorem strContains_iff (t w : String) :
    strContains t w = true ↔ w.data <:+: t.data := by
  simp only [strContains, List.any_eq_true, List.mem_tails]
  constructor
  · rintro ⟨s, hsuf, hpre⟩
    exact List.infix_iff_prefix_suffix.mpr ⟨s, List.isPrefixOf_iff_prefix.mp hpre, hsuf⟩
  · intro h
    obtain ⟨s, hpre, hsuf⟩ := List.infix_iff_prefix_suffix.mp h
    exact ⟨s, hsuf, List.isPrefixOf_iff_prefix.mpr hpre⟩

/-- The scanning loop of `check_content_moderation`: return on the first
prohibited word contained in `text`. -/
def moderationLoop (text : String) : List String → Bool × String
  | [] => (true, "")
  | w :: ws =>
    if strContains text w then
      (false, "Content contains prohibited word: " ++ w)
    else moderationLoop text ws

/-- `check_content_moderation(text)` from `src/app.py`: `(ok, reason)`. -/
def check_content_moderation (text : String) : Bool × String :=
  moderationLoop text PROHIBITED_WORDS

/-! ## Conversation identity (`get_conversation_id`) -/

/-- `get_conversation_id(user1_id, user2_id)` from `src/app.py`:
`"_".join(sorted([user1_id, user2_id]))` — for a two-element list,
Python's `sorted` is exactly this comparison. -/
def get_conversation_id (user1_id user2_id : String) : String :=
  String.intercalate "_" (if user1_id ≤ user2_id then [user1_id, user2_id] else [user2_id, user1_id])

/-! ## Posts and rate-limited likes
(`experience_posts`, `user_likes`, `can_like_post`, `api_like_post`) -/

/-- An experience post, restricted to the fields the like/delete
operations read or write (`src/app.py` posts also carry title, content,
tags, votes, comments, …, which those operations never touch). -/
structure Post where
  id : String
  author_id : String
  likes : Nat
  liked_by : List String
deriving DecidableEq, Repr

/-- State touched by `api_like_post`: the `experience_posts` list and the
`user_likes` tracking dict (`user_id → {post_id: timestamp}`; the code
lazily inserts `{}` for unseen users, so the total-function view with
default `[]` is the same map). -/
structure LikeState where
  posts : List Post
  user_likes : String → List (String × Time)

/-- `can_like_post(user_id, post_id)` from `src/app.py`, with the
current time passed explicitly in place of `datetime.now()`:
denies a like when `(user_id, post_id)` already has a timestamp from
today, else when the user already has 50 timestamps from today. -/
def can_like_post (user_id post_id : String) (now : Time)
    (user_likes : String → List (String × Time)) : Bool × String :=
  let user_post_likes := user_likes user_id
  let today_start := startOfDay now
  if (match dictLookup user_post_likes post_id with
      | some last_like => Time.le today_start last_like
      | none => false) then
    (false, "Today's like, cannot be repeated")
  else if 50 ≤ user_post_likes.countP (fun e => Time.le today_start e.2) then
    (false, "Daily like limit reached (50/day)")
  else
    (true, "")

/-- Responses of `api_like_post` (JSON payloads of the handler), for a
logged-in caller. -/
inductive LikeResp where
  | unliked (likes : Nat)
  | liked (likes : Nat)
  | limited (msg : String)
  | notFound
deriving DecidableEq, Repr

/-- The `for post in experience_posts` loop of `api_like_post`: act on the
first post whose id matches, leaving all others untouched.
`max(0, likes - 1)` is `Nat` subtraction. -/
def likePostLoop (user_id post_id : String) (now : Time)
    (ul : String → List (String × Time)) :
    List Post → List Post × (String → List (String × Time)) × LikeResp
  | [] => ([], ul, .notFound)
  | p :: ps =>
    if p.id = post_id then
      if user_id ∈ p.liked_by then
        let p' : Post := { p with liked_by := p.liked_by.erase user_id, likes := p.likes - 1 }
        (p' :: ps, updFun ul user_id (dictErase (ul user_id) post_id), .unliked p'.likes)
      else
        match can_like_post user_id post_id now ul with
        | (false, msg) => (p :: ps, ul, .limited msg)
        | (true, _) =>
          let p' : Post := { p with likes := p.likes + 1, liked_by := p.liked_by ++ [user_id] }
          (p' :: ps, updFun ul user_id (dictInsert (ul user_id) post_id now), .liked p'.likes)
    else
      let r := likePostLoop user_id post_id now ul ps
      (p :: r.1, r.2.1, r.2.2)

/-- `api_like_post(post_id)` from `src/app.py` for a logged-in user
`user_id`, with `datetime.now()` passed explicitly: toggle-unlike if the
user is in `liked_by`, otherwise a rate-limit-checked like. -/
def api_like_post (user_id post_id : String) (now : Time) (s : LikeState) :
    LikeState × LikeResp :=
  let r := likePostLoop user_id post_id now s.user_likes s.posts
  (⟨r.1, r.2.1⟩, r.2.2)

/-- A sequence of `api_like_post` calls, applied oldest first; each list
entry is `(user_id, post_id, now)`. -/
def applyLikeOps (ops : List (String × String × Time)) (s : LikeState) : LikeState :=
  ops.foldl (fun s op => (api_like_post op.1 op.2.1 op.2.2 s).1) s

/-- First post with a given id (`api_like_post`/`api_delete_post` both
act on the first match of their scan). -/
def findPost (post_id : String) (posts : List Post) : Option Post :=
  posts.find? (fun p => p.id == post_id)

/-- The seeded demo post with id `"1"` from `experience_posts` in
`src/app.py` (lines 1175–1195), restricted to the modelled fields:
`likes: 42`, `liked_by: []`. -/
def seedPost1 : Post := { id := "1", author_id := "system", likes := 42, liked_by := [] }

/-! ## Points and badges (`ACHIEVEMENT_BADGES`, `award_user_points`) -/

/-- One entry of the `ACHIEVEMENT_BADGES` configuration dict. -/
structure BadgeInfo where
  name : String
  icon : String
  desc : String
  points : Nat
deriving DecidableEq, Repr

/-- `ACHIEVEMENT_BADGES` from `src/app.py`. -/
def ACHIEVEMENT_BADGES : List (String × BadgeInfo) :=
  [("first_vote", ⟨"First Vote", "star", "Cast your first vote", 10⟩),
   ("voter_10", ⟨"Active Voter", "fire", "Cast 10 votes", 50⟩),
   ("voter_50", ⟨"Super Voter", "trophy", "Cast 50 votes", 200⟩),
   ("offer_shared", ⟨"Offer Sharer", "gift", "Share your first offer", 100⟩),
   ("verified_offer", ⟨"Verified Winner", "check-circle", "Share a verified offer", 150⟩),
   ("top_contributor", ⟨"Top Contributor", "award", "Reach 500 points", 0⟩)]

/-- `ACHIEVEMENT_BADGES[b]["points"]` (every key the code uses is
present, so the `0` default is never taken on source-reachable calls). -/
def badgePoints (b : String) : Nat :=
  ((ACHIEVEMENT_BADGES.find? (fun e => e.1 == b)).map (fun e => e.2.points)).getD 0

/-- One `user_achievements` record:
`{"badges": [...], "points": n, "votes_cast": n, "offers_shared": n}`. -/
structure Achievement where
  badges : List String
  points : Nat
  votes_cast : Nat
  offers_shared : Nat
deriving DecidableEq, Repr

/-- The lazily-created fresh record of `award_user_points`. -/
def freshAchievement : Achievement :=
  { badges := [], points := 0, votes_cast := 0, offers_shared := 0 }

/-- `award_user_points(user_id, points, action_type)` from `src/app.py`,
acting on the `user_achievements` dict (total-function view, `none` for
absent users): add base points; on `"vote"` bump `votes_cast` and walk the
exact-equality `elif` chain for `first_vote`/`voter_10`/`voter_50`; on
`"offer"` bump `offers_shared` and award `offer_shared` once; finally
award `top_contributor` once `points >= 500`. -/
def award_user_points (user_id : String) (points : Nat) (action_type : String)
    (m : String → Option Achievement) : String → Option Achievement :=
  let a : Achievement := (m user_id).getD freshAchievement
  let a : Achievement := { a with points := a.points + points }
  let a : Achievement :=
    if action_type = "vote" then
      let a : Achievement := { a with votes_cast := a.votes_cast + 1 }
      if a.votes_cast = 1 ∧ "first_vote" ∉ a.badges then
        { a with badges := a.badges ++ ["first_vote"],
                 points := a.points + badgePoints "first_vote" }
      else if a.votes_cast = 10 ∧ "voter_10" ∉ a.badges then
        { a with badges := a.badges ++ ["voter_10"],
                 points := a.points + badgePoints "voter_10" }
      else if a.votes_cast = 50 ∧ "voter_50" ∉ a.badges then
        { a with badges := a.badges ++ ["voter_50"],
                 points := a.points + badgePoints "voter_50" }
      else a
    else if action_type = "offer" then
      let a : Achievement := { a with offers_shared := a.offers_shared + 1 }
      if "offer_shared" ∉ a.badges then
        { a with badges := a.badges ++ ["offer_shared"],
                 points := a.points + badgePoints "offer_shared" }
      else a
    else a
  let a : Achievement :=
    if 500 ≤ a.points ∧ "top_contributor" ∉ a.badges then
      { a with badges := a.badges ++ ["top_contributor"] }
    else a
  updFun m user_id (some a)

/-- `n` successive `award_user_points(user_id, 5, "vote")` calls (the
base points `api_vote_company` passes), oldest first. -/
def awardVotes (user_id : String) (m : String → Option Achievement) :
    Nat → String → Option Achievement
  | 0 => m
  | n + 1 => award_user_points user_id 5 "vote" (awardVotes user_id m n)

/-! ## Company votes
(`dream_companies`, `company_votes`, `can_vote_for_company`, `api_vote_company`) -/

/-- A dream company, restricted to the fields the vote operation reads or
writes. -/
structure Company where
  id : String
  votes : Nat
deriving DecidableEq, Repr

/-- State touched by `api_vote_company`: the `dream_companies` list, the
`company_votes` dict (`company_id → {user_id: timestamp}`, total-function
view with default `[]` — the code's lazy `{}` insertion is a no-op there)
and the `user_achievements` dict. -/
structure VoteState where
  companies : List Company
  company_votes : String → List (String × Time)
  user_achievements : String → Option Achievement

/-- `can_vote_for_company(user_id, company_id)` from `src/app.py`, with
the current time explicit: denies when the user already has a vote
timestamp for this company from today. -/
def can_vote_for_company (user_id company_id : String) (now : Time)
    (company_votes : String → List (String × Time)) : Bool × String :=
  if (match dictLookup (company_votes company_id) user_id with
      | some last_vote => Time.le (startOfDay now) last_vote
      | none => false) then
    (false, "You already voted for this company today")
  else
    (true, "")

/-- Responses of `api_vote_company` for a logged-in caller. -/
inductive VoteResp where
  | ok (votes : Nat)
  | denied (msg : String)
  | notFound
deriving DecidableEq, Repr

/-- The `for company in dream_companies` loop of `api_vote_company`:
increment the first matching company's votes, record the timestamp and
award points. -/
def voteCompanyLoop (user_id company_id : String) (now : Time)
    (cv : String → List (String × Time)) (ach : String → Option Achievement) :
    List Company →
      List Company × (String → List (String × Time)) × (String → Option Achievement) × VoteResp
  | [] => ([], cv, ach, .notFound)
  | c :: cs =>
    if c.id = company_id then
      let c' : Company := { c with votes := c.votes + 1 }
      (c' :: cs,
       updFun cv company_id (dictInsert (cv company_id) user_id now),
       award_user_points user_id 5 "vote" ach,
       .ok c'.votes)
    else
      let r := voteCompanyLoop user_id company_id now cv ach cs
      (c :: r.1, r.2.1, r.2.2.1, r.2.2.2)

/-- `api_vote_company(company_id)` from `src/app.py` for a logged-in user
`user_id`, with `datetime.now()` passed explicitly: the rate-limit check
runs first; on success the company's votes are bumped, the timestamp
recorded, and `award_user_points(user_id, 5, "vote")` applied. -/
def api_vote_company (user_id company_id : String) (now : Time) (s : VoteState) :
    VoteState × VoteResp :=
  match can_vote_for_company user_id company_id now s.company_votes with
  | (false, msg) => (s, .denied msg)
  | (true, _) =>
    let r := voteCompanyLoop user_id company_id now s.company_votes s.user_achievements s.companies
    (⟨r.1, r.2.1, r.2.2.1⟩, r.2.2.2)

/-- First company with a given id. -/
def findCompany (company_id : String) (companies : List Company) : Option Company :=
  companies.find? (fun c => c.id == company_id)

/-! ## Post deletion and favorites (`user_favorites`, `api_delete_post`) -/

/-- State touched by `api_delete_post`: the `experience_posts` list and
the `user_favorites` dict (`user_id → [post_id, ...]`), kept as an
association list because the handler iterates over all of its keys. -/
structure DeleteState where
  posts : List Post
  user_favorites : List (String × List String)
deriving Repr

/-- The favorite-purge loop of `api_delete_post`:
`for u in user_favorites: if post_id in user_favorites[u]:
user_favorites[u].remove(post_id)` — Python `list.remove` drops the first
occurrence, which is `List.erase`. -/
def purgeFavorites (post_id : String) (favs : List (String × List String)) :
    List (String × List String) :=
  favs.map (fun e => (e.1, if post_id ∈ e.2 then e.2.erase post_id else e.2))

/-- The `for i, post in enumerate(experience_posts)` loop of
`api_delete_post`: `none` when no post matches, `some (inr ())` when the
first match is owned by someone else, `some (inl posts')` with the first
match popped on success. -/
def deletePostLoop (uid post_id : String) :
    List Post → Option (List Post ⊕ Unit)
  | [] => none
  | p :: ps =>
    if p.id = post_id then
      if p.author_id ≠ uid then some (.inr ())
      else some (.inl ps)
    else
      match deletePostLoop uid post_id ps with
      | some (.inl ps') => some (.inl (p :: ps'))
      | r => r

/-- `api_delete_post(post_id)` from `src/app.py` for a logged-in user
`uid`: only the author may delete; on success the post is popped and its
id removed from every user's favorites. The `Bool × String` result is the
handler's `(success, message)` JSON payload. -/
def api_delete_post (uid post_id : String) (s : DeleteState) :
    DeleteState × Bool × String :=
  match deletePostLoop uid post_id s.posts with
  | some (.inl posts') =>
    (⟨posts', purgeFavorites post_id s.user_favorites⟩, true, "Post deleted successfully")
  | some (.inr _) => (s, false, "You can only delete your own posts")
  | none => (s, false, "Post not found")

/-! ## Messaging (`private_messages`, `api_messages_unread_count`,
`api_get_conversations`) -/

/-- Split a character list at every occurrence of `sep`, Python
`str.split(sep)` style (adjacent separators yield empty parts, the empty
string yields one empty part). -/
def splitChar (sep : Char) : List Char → List (List Char)
  | [] => [[]]
  | c :: cs =>
    match splitChar sep cs with
    | [] => [[]]
    | part :: parts =>
      if c = sep then [] :: part :: parts
      else (c :: part) :: parts

/-- Python `s.split("_")` on a string. -/
def pySplitU (s : String) : List String :=
  (splitChar '_' s.data).map (fun l => String.mk l)

/-- A private message, restricted to the fields the unread-count and
conversation-list handlers read (`id` is never read there). -/
structure Message where
  sender_id : String
  receiver_id : String
  content : String
  read : Bool
  created_at : Time
deriving DecidableEq, Repr

/-- A `users_db` record, restricted to what `api_get_conversations`
reads: the handler resolves a user id to the profile name and verified
flag (`email`, the dict key, is only used for that resolution). -/
structure UserRec where
  user_id : String
  name : String
  verified : Bool
deriving DecidableEq, Repr

/-- State read by the messaging handlers: the `private_messages` dict
(`conversation_id → [message, ...]`, iterated in insertion order) and
`users_db`. -/
structure MsgState where
  private_messages : List (String × List Message)
  users_db : List UserRec
deriving Repr

/-- `api_messages_unread_count()` from `src/app.py` for the logged-in
user `uid`: sum, over the conversations whose key splits on `"_"` into a
list containing `uid`, of the unread messages addressed to `uid`. -/
def api_messages_unread_count (uid : String) (s : MsgState) : Nat :=
  s.private_messages.foldl
    (fun total e =>
      if uid ∈ pySplitU e.1 then
        total + e.2.countP (fun m => m.receiver_id == uid && !m.read)
      else total) 0

/-- One entry of the conversation list `api_get_conversations` returns. -/
structure ConvSummary where
  id : String
  other_user_id : String
  other_user_name : String
  other_user_verified : Bool
  last_message : String
  last_message_time : Time
  unread_count : Nat
deriving DecidableEq, Repr

/-- The `for conv_id, messages in private_messages.items()` loop of
`api_get_conversations`: keep conversations whose key splits into a list
containing `uid` and whose message list is nonempty; summarise each.
The other participant is the first split part different from `uid`
(Python indexes `[0]`; the `""` default stands for the `IndexError` case,
which no key in which `uid` occurs as a part can produce unless every
part equals `uid`). -/
def convLoop (uid : String) (udb : List UserRec) :
    List (String × List Message) → List ConvSummary
  | [] => []
  | (conv_id, messages) :: rest =>
    if uid ∈ pySplitU conv_id then
      match messages.getLast? with
      | some last_msg =>
        let other_id := ((pySplitU conv_id).filter (fun u => u ≠ uid)).headD ""
        let other := udb.find? (fun u => u.user_id == other_id)
        { id := conv_id
          other_user_id := other_id
          other_user_name := ((other.map (fun u => u.name)).getD "User")
          other_user_verified := ((other.map (fun u => u.verified)).getD false)
          last_message :=
            last_msg.content.take 50 ++ (if 50 < last_msg.content.length then "..." else "")
          last_message_time := last_msg.created_at
          unread_count := messages.countP (fun m => m.receiver_id == uid && !m.read) }
          :: convLoop uid udb rest
      | none => convLoop uid udb rest
    else convLoop uid udb rest

/-- Stable insertion step for `pySortBy`: `x` goes before the first
element it strictly precedes, so elements comparing equal keep their
original order, as Python's stable `list.sort` does. -/
def insertBy {α : Type} (le : α → α → Bool) (x : α) : List α → List α
  | [] => [x]
  | y :: ys => if le x y && !le y x then x :: y :: ys else y :: insertBy le x ys

/-- Stable sort by a boolean total preorder (models Python `list.sort`). -/
def pySortBy {α : Type} (le : α → α → Bool) : List α → List α
  | [] => []
  | x :: xs => insertBy le x (pySortBy le xs)

/-- `api_get_conversations()` from `src/app.py` for the logged-in user
`uid`: collect the summaries, then
`conversations.sort(key=lambda c: c['last_message_time'], reverse=True)`
(newest first, stable). -/
def api_get_conversations (uid : String) (s : MsgState) : List ConvSummary :=
  pySortBy (fun a b => Time.le b.last_message_time a.last_message_time)
    (convLoop uid s.users_db s.private_messages)

/-! ## Offer showcase likes (`offer_showcase`, `api_like_offer`) -/

/-- A showcase offer, restricted to the fields `api_like_offer` reads or
writes. -/
structure Offer where
  id : String
  likes : Nat
deriving DecidableEq, Repr

/-- Responses of `api_like_offer` for a logged-in caller. -/
inductive OfferResp where
  | ok (likes : Nat)
  | notFound
deriving DecidableEq, Repr

/-- `api_like_offer(offer_id)` from `src/app.py` for a logged-in user
`uid`: find the first offer with the given id and set
`offer["likes"] = offer.get("likes", 0) + 1` (the field is always present
in the model, so the `0` default never fires). The user id is checked for
login by the decorator but otherwise unused — no per-user tracking. -/
def api_like_offer (uid offer_id : String) : List Offer → List Offer × OfferResp
  | [] => ([], .notFound)
  | o :: os =>
    if o.id = offer_id then
      let o' : Offer := { o with likes := o.likes + 1 }
      (o' :: os, .ok o'.likes)
    else
      let r := api_like_offer uid offer_id os
      (o :: r.1, r.2)

/-- `n` successive `api_like_offer` calls by user `uid` on `offer_id`. -/
def likeOfferN (uid offer_id : String) (offers : List Offer) : Nat → List Offer
  | 0 => offers
  | n + 1 => (api_like_offer uid offer_id (likeOfferN uid offer_id offers n)).1

/-- First offer with a given id. -/
def findOffer (offer_id : String) (offers : List Offer) : Option Offer :=
  offers.find? (fun o => o.id == offer_id)

/-! ## Theorems -/

/-- C7: for every pair of user IDs `A` and `B`,
`conversationId(A, B) = conversationId(B, A)` — the key is computed by
sorting the two IDs and joining them, so it is symmetric. -/
theorem get_conversation_id_symm (a b : String) :
    get_conversation_id a b = get_conversation_id b a := by
  unfold get_conversation_id
  rcases le_or_lt a b with hab | hab
  · rcases eq_or_lt_of_le hab with rfl | h
    · rfl
    · rw [if_pos hab, if_neg (not_le.mpr h)]
  · rw [if_neg (not_le.mpr hab), if_pos (le_of_lt hab)]

theorem moderationLoop_spec (text : String) (ws : List String) :
    ((moderationLoop text ws).1 = false ↔ ∃ w ∈ ws, w.data <:+: text.data)
  ∧ ((moderationLoop text ws).1 = false →
      ∃ l₁ w l₂, ws = l₁ ++ w :: l₂ ∧ w.data <:+: text.data ∧
        (∀ v ∈ l₁, ¬ v.data <:+: text.data) ∧
        (moderationLoop text ws).2 = "Content contains prohibited word: " ++ w) := by
  induction ws with
  | nil =>
    constructor
    · simp [moderationLoop]
    · intro h
      simp [moderationLoop] at h
  | cons w ws ih =>
    by_cases h : strContains text w = true
    · have hw : w.data <:+: text.data := (strContains_iff _ _).mp h
      have hstep : moderationLoop text (w :: ws) =
          (false, "Content contains prohibited word: " ++ w) := by
        simp [moderationLoop, h]
      constructor
      · rw [hstep]
        exact iff_of_true rfl ⟨w, List.mem_cons_self _ _, hw⟩
      · intro _
        exact ⟨[], w, ws, rfl, hw, by simp, by rw [hstep]⟩
    · have hw : ¬ w.data <:+: text.data := fun hc => h ((strContains_iff _ _).mpr hc)
      have hstep : moderationLoop text (w :: ws) = moderationLoop text ws := by
        simp [moderationLoop, h]
      constructor
      · rw [hstep, ih.1]
        constructor
        · rintro ⟨v, hv, hvi⟩
          exact ⟨v, List.mem_cons_of_mem _ hv, hvi⟩
        · rintro ⟨v, hv, hvi⟩
          rcases List.mem_cons.mp hv with rfl | hv
          · exact absurd hvi hw
          · exact ⟨v, hv, hvi⟩
      · intro hfalse
        rw [hstep] at hfalse ⊢
        obtain ⟨l₁, v, l₂, hws, hvi, hnone, hmsg⟩ := ih.2 hfalse
        refine ⟨w :: l₁, v, l₂, by rw [hws]; rfl, hvi, ?_, hmsg⟩
        intro u hu
        rcases List.mem_cons.mp hu with rfl | hu
        · exact hw
        · exact hnone u hu

/-- C6: `check_content_moderation` rejects `text` iff some word of
`PROHIBITED_WORDS` occurs in it as an exact, case-sensitive contiguous
substring; on rejection the reported word is the first matching word in
list order. The check is a pure function of `text` alone (no state in,
no state out), so it has no side effects. -/
theorem check_content_moderation_spec (text : String) :
    ((check_content_moderation text).1 = false ↔
      ∃ w ∈ PROHIBITED_WORDS, w.data <:+: text.data)
  ∧ ((check_content_moderation text).1 = false →
      ∃ l₁ w l₂, PROHIBITED_WORDS = l₁ ++ w :: l₂ ∧ w.data <:+: text.data ∧
        (∀ v ∈ l₁, ¬ v.data <:+: text.data) ∧
        (check_content_moderation text).2 = "Content contains prohibited word: " ++ w) :=
  moderationLoop_spec text PROHIBITED_WORDS

/-- Witness for C6 at the spec's own scenario: "请找人代写论文" is
rejected and the first (indeed only) matching word is reported, while
"正常内容" passes. -/
theorem check_content_moderation_spec_witness :
    (check_content_moderation "请找人代写论文").1 = false ∧
    (∃ l₁ w l₂, PROHIBITED_WORDS = l₁ ++ w :: l₂ ∧
        w.data <:+: ("请找人代写论文" : String).data ∧
        (∀ v ∈ l₁, ¬ v.data <:+: ("请找人代写论文" : String).data) ∧
        (check_content_moderation "请找人代写论文").2 =
          "Content contains prohibited word: " ++ w) ∧
    (check_content_moderation "正常内容").1 = true := by
  have hfalse : (check_content_moderation "请找人代写论文").1 = false := by decide
  exact ⟨hfalse, (check_content_moderation_spec "请找人代写论文").2 hfalse, by decide⟩

/-- C3: a fresh user (no `user_achievements` record) who is awarded the
`"vote"` action exactly 10 times (at the 5 base points
`api_vote_company` passes) holds exactly the badges
`first_vote, voter_10` — not `voter_50` — and after the 50th award the
badges include all three (plus `top_contributor`, since the total passes
500 on that call). Badges are never duplicated, and the point totals are
exactly base points plus each awarded badge's fixed bonus. -/
theorem award_user_points_vote_thresholds :
    awardVotes "u" (fun _ => none) 10 "u" =
      some { badges := ["first_vote", "voter_10"], points := 110,
             votes_cast := 10, offers_shared := 0 }
  ∧ ("voter_50" ∉ ["first_vote", "voter_10"])
  ∧ (110 = 10 * 5 + badgePoints "first_vote" + badgePoints "voter_10")
  ∧ (["first_vote", "voter_10"] : List String).Nodup
  ∧ awardVotes "u" (fun _ => none) 50 "u" =
      some { badges := ["first_vote", "voter_10", "voter_50", "top_contributor"],
             points := 510, votes_cast := 50, offers_shared := 0 }
  ∧ (510 = 50 * 5 + badgePoints "first_vote" + badgePoints "voter_10"
        + badgePoints "voter_50")
  ∧ (["first_vote", "voter_10", "voter_50", "top_contributor"] : List String).Nodup := by
  set_option maxRecDepth 4000 in
  refine ⟨by decide, by decide, by decide, by decide, ?_, by decide, by decide⟩
  decide

theorem api_like_offer_step (uid offer_id : String) (offers : List Offer) (o : Offer)
    (h : findOffer offer_id offers = some o) :
    (api_like_offer uid offer_id offers).2 = .ok (o.likes + 1) ∧
    findOffer offer_id (api_like_offer uid offer_id offers).1 =
      some { o with likes := o.likes + 1 } := by
  induction offers with
  | nil => simp [findOffer] at h
  | cons p ps ih =>
    by_cases hp : p.id = offer_id
    · have hp' : (p.id == offer_id) = true := by simpa using hp
      have hfind : findOffer offer_id (p :: ps) = some p := by
        simp [findOffer, List.find?, hp']
      rw [hfind] at h
      injection h with h
      subst h
      simp [api_like_offer, hp, findOffer, List.find?, hp']
    · have hp' : (p.id == offer_id) = false := by simpa using hp
      have hfind : findOffer offer_id (p :: ps) = findOffer offer_id ps := by
        simp [findOffer, List.find?, hp']
      rw [hfind] at h
      have := ih h
      simp only [api_like_offer, hp, if_false, ite_false]
      constructor
      · exact this.1
      · simpa [findOffer, List.find?, hp'] using this.2

/-- C10: offer likes are neither rate-limited nor tracked per user — the
state has no per-user component at all, and for any logged-in user and
any existing offer, every `api_like_offer` call succeeds and increments
that offer's like count by one, so `n` repeated calls by the same user
increase the count by exactly `n`. -/
theorem api_like_offer_unrestricted (uid offer_id : String) (offers : List Offer)
    (o : Offer) (h : findOffer offer_id offers = some o) (n : Nat) :
    findOffer offer_id (likeOfferN uid offer_id offers n) =
      some { o with likes := o.likes + n } ∧
    (api_like_offer uid offer_id (likeOfferN uid offer_id offers n)).2 =
      .ok (o.likes + n + 1) := by
  induction n with
  | zero =>
    have h0 : findOffer offer_id (likeOfferN uid offer_id offers 0) = some o := h
    refine ⟨by simpa using h0, ?_⟩
    simpa using (api_like_offer_step uid offer_id _ o h0).1
  | succ n ihn =>
    have hstep := api_like_offer_step uid offer_id (likeOfferN uid offer_id offers n)
      { o with likes := o.likes + n } ihn.1
    have h1 : findOffer offer_id (likeOfferN uid offer_id offers (n + 1)) =
        some { o with likes := o.likes + (n + 1) } := by
      simpa [likeOfferN, Nat.add_assoc] using hstep.2
    refine ⟨h1, ?_⟩
    simpa [Nat.add_assoc] using (api_like_offer_step uid offer_id _ _ h1).1

/-- Witness for C10: a showcase with one offer at 7 likes; after 3 calls
by the same user it holds 10 and a further call reports 11. -/
theorem api_like_offer_unrestricted_witness :
    findOffer "off1" (likeOfferN "u" "off1" [{ id := "off1", likes := 7 }] 3) =
      some { id := "off1", likes := 10 } ∧
    (api_like_offer "u" "off1" (likeOfferN "u" "off1" [{ id := "off1", likes := 7 }] 3)).2 =
      .ok 11 :=
  api_like_offer_unrestricted "u" "off1" [{ id := "off1", likes := 7 }]
    { id := "off1", likes := 7 } (by decide) 3

theorem likePostLoop_preserves_inv (uid pid : String) (now : Time)
    (ul : String → List (String × Time)) (posts : List Post)
    (h : ∀ p ∈ posts, p.likes = p.liked_by.length ∧ p.liked_by.Nodup) :
    ∀ p ∈ (likePostLoop uid pid now ul posts).1,
      p.likes = p.liked_by.length ∧ p.liked_by.Nodup := by
  induction posts with
  | nil => simp [likePostLoop]
  | cons p ps ih =>
    have hp := h p (List.mem_cons_self _ _)
    have hps : ∀ q ∈ ps, q.likes = q.liked_by.length ∧ q.liked_by.Nodup :=
      fun q hq => h q (List.mem_cons_of_mem _ hq)
    by_cases hid : p.id = pid
    · by_cases hmem : uid ∈ p.liked_by
      · simp only [likePostLoop, hid, if_true, hmem, ite_true]
        intro q hq
        rcases List.mem_cons.mp hq with rfl | hq
        · refine ⟨?_, hp.2.erase _⟩
          simp only
          rw [hp.1, List.length_erase_of_mem hmem]
        · exact hps q hq
      · rcases hcan : can_like_post uid pid now ul with ⟨b, msg⟩
        cases b
        · simp only [likePostLoop, hid, if_true, hmem, ite_false, hcan]
          intro q hq
          rcases List.mem_cons.mp hq with rfl | hq
          · exact hp
          · exact hps q hq
        · simp only [likePostLoop, hid, if_true, hmem, ite_false, hcan]
          intro q hq
          rcases List.mem_cons.mp hq with rfl | hq
          · constructor
            · simp only
              rw [hp.1, List.length_append]
              rfl
            · simp [List.nodup_append, hp.2, hmem]
          · exact hps q hq
    · simp only [likePostLoop, hid, ite_false]
      intro q hq
      rcases List.mem_cons.mp hq with rfl | hq
      · exact hp
      · exact ih hps q hq

/-- C1 (amended): the like/unlike toggle `api_like_post` preserves the
invariant "`likes` equals `|liked_by|` and no user ID occurs twice in
`liked_by`" for every post, over any sequence of calls — so every post
created with `likes = 0, liked_by = []` satisfies it forever. (The
seeded demo posts start in violation — see the counterexample — which is
why the invariant is stated as preservation from a state satisfying
it.) -/
theorem likes_eq_liked_by_after_any_like_ops
    (ops : List (String × String × Time)) (s : LikeState)
    (h : ∀ p ∈ s.posts, p.likes = p.liked_by.length ∧ p.liked_by.Nodup) :
    ∀ p ∈ (applyLikeOps ops s).posts,
      p.likes = p.liked_by.length ∧ p.liked_by.Nodup := by
  induction ops generalizing s with
  | nil => exact h
  | cons op ops ih =>
    have hstep : ∀ p ∈ (api_like_post op.1 op.2.1 op.2.2 s).1.posts,
        p.likes = p.liked_by.length ∧ p.liked_by.Nodup :=
      likePostLoop_preserves_inv op.1 op.2.1 op.2.2 s.user_likes s.posts h
    exact ih (api_like_post op.1 op.2.1 op.2.2 s).1 hstep

/-- The initial `experience_posts`/`user_likes` state restricted to the
seeded demo post with id `"1"`. -/
def seedLikeState : LikeState := ⟨[seedPost1], fun _ => []⟩

/-- C1 counterexample: the seeded demo post `"1"` ships with
`likes = 42` but `liked_by = []`, so already after a single
`api_like_post` call (here: user `"u"` on day 1000) — a nonempty
sequence of like calls — the post has `likes = 43` while
`|liked_by| = 1`: the claimed equality fails on the code as shipped. -/
theorem seed_post_breaks_likes_invariant :
    ∃ p ∈ (applyLikeOps [("u", "1", ⟨1000, 0⟩)] seedLikeState).posts,
      ¬ p.likes = p.liked_by.length := by decide

/-- Witness for C1 (amended): a post starting at `likes = 0,
liked_by = []` keeps the invariant across a like, a like by another
user, and an unlike toggle. -/
theorem likes_eq_liked_by_witness :
    (∀ p ∈ ([{ id := "p", author_id := "a", likes := 0, liked_by := [] }] : List Post),
      p.likes = p.liked_by.length ∧ p.liked_by.Nodup) ∧
    (∀ p ∈ (applyLikeOps [("u", "p", ⟨0, 5⟩), ("v", "p", ⟨0, 6⟩), ("u", "p", ⟨0, 7⟩)]
        ⟨[{ id := "p", author_id := "a", likes := 0, liked_by := [] }], fun _ => []⟩).posts,
      p.likes = p.liked_by.length ∧ p.liked_by.Nodup) :=
  ⟨by decide,
   likes_eq_liked_by_after_any_like_ops
     [("u", "p", ⟨0, 5⟩), ("v", "p", ⟨0, 6⟩), ("u", "p", ⟨0, 7⟩)]
     ⟨[{ id := "p", author_id := "a", likes := 0, liked_by := [] }], fun _ => []⟩
     (by decide)⟩

theorem updFun_same {β : Type} (f : String → β) (k : String) (v : β) :
    updFun f k v k = v := by simp [updFun]

theorem updFun_ne {β : Type} (f : String → β) (k : String) (v : β) (x : String)
    (h : x ≠ k) : updFun f k v x = f x := by simp [updFun, h]

theorem dictLookup_dictInsert (l : List (String × Time)) (k : String) (v : Time) :
    dictLookup (dictInsert l k v) k = some v := by
  unfold dictInsert
  by_cases hany : l.any (fun e => e.1 == k) = true
  · rw [if_pos hany]
    induction l with
    | nil => simp at hany
    | cons e es ih =>
      by_cases he : (e.1 == k) = true
      · simp [dictLookup, List.find?, he]
      · have hes : es.any (fun e => e.1 == k) = true := by
          rcases List.any_eq_true.mp hany with ⟨x, hx, hxk⟩
          rcases List.mem_cons.mp hx with rfl | hx
          · exact absurd hxk he
          · exact List.any_eq_true.mpr ⟨x, hx, hxk⟩
        have := ih hes
        simpa [dictLookup, List.find?, he] using this
  · rw [if_neg hany]
    induction l with
    | nil => simp [dictLookup, List.find?]
    | cons e es ih =>
      have he : (e.1 == k) = false := by
        by_contra hc
        exact hany (List.any_eq_true.mpr ⟨e, List.mem_cons_self _ _,
          by simpa using hc⟩)
      have hes : ¬ es.any (fun e => e.1 == k) = true := by
        intro hc
        rcases List.any_eq_true.mp hc with ⟨x, hx, hxk⟩
        exact hany (List.any_eq_true.mpr ⟨x, List.mem_cons_of_mem _ hx, hxk⟩)
      have := ih hes
      simpa [dictLookup, List.find?, he] using this

theorem likePostLoop_unlike (uid pid : String) (now : Time)
    (ul : String → List (String × Time)) (posts : List Post) (p : Post)
    (hfind : findPost pid posts = some p) (hmem : uid ∈ p.liked_by) :
    (likePostLoop uid pid now ul posts).2.2 = .unliked (p.likes - 1) ∧
    (likePostLoop uid pid now ul posts).2.1 = updFun ul uid (dictErase (ul uid) pid) ∧
    findPost pid (likePostLoop uid pid now ul posts).1 =
      some { p with likes := p.likes - 1, liked_by := p.liked_by.erase uid } := by
  induction posts with
  | nil => simp [findPost] at hfind
  | cons q qs ih =>
    by_cases hq : q.id = pid
    · have hq' : (q.id == pid) = true := by simpa using hq
      have hqp : q = p := by
        have h0 := hfind
        simp [findPost, List.find?, hq'] at h0
        exact h0
      subst hqp
      simp [likePostLoop, hq, hmem, findPost, List.find?, hq']
    · have hq' : (q.id == pid) = false := by simpa using hq
      have hfind' : findPost pid qs = some p := by
        simpa [findPost, List.find?, hq'] using hfind
      have h := ih hfind'
      simp only [likePostLoop, hq, ite_false]
      exact ⟨h.1, h.2.1, by simpa [findPost, List.find?, hq'] using h.2.2⟩

theorem likePostLoop_denied (uid pid : String) (now : Time)
    (ul : String → List (String × Time)) (posts : List Post) (p : Post) (msg : String)
    (hfind : findPost pid posts = some p) (hmem : uid ∉ p.liked_by)
    (hcan : can_like_post uid pid now ul = (false, msg)) :
    likePostLoop uid pid now ul posts = (posts, ul, .limited msg) := by
  induction posts with
  | nil => simp [findPost] at hfind
  | cons q qs ih =>
    by_cases hq : q.id = pid
    · have hq' : (q.id == pid) = true := by simpa using hq
      have hqp : q = p := by
        have h0 := hfind
        simp [findPost, List.find?, hq'] at h0
        exact h0
      subst hqp
      simp [likePostLoop, hq, hmem, hcan]
    · have hq' : (q.id == pid) = false := by simpa using hq
      have hfind' : findPost pid qs = some p := by
        simpa [findPost, List.find?, hq'] using hfind
      have h := ih hfind'
      simp only [likePostLoop, hq, ite_false, h]

theorem likePostLoop_allowed (uid pid : String) (now : Time)
    (ul : String → List (String × Time)) (posts : List Post) (p : Post)
    (hfind : findPost pid posts = some p) (hmem : uid ∉ p.liked_by)
    (hcan : can_like_post uid pid now ul = (true, "")) :
    (likePostLoop uid pid now ul posts).2.2 = .liked (p.likes + 1) ∧
    (likePostLoop uid pid now ul posts).2.1 =
      updFun ul uid (dictInsert (ul uid) pid now) ∧
    findPost pid (likePostLoop uid pid now ul posts).1 =
      some { p with likes := p.likes + 1, liked_by := p.liked_by ++ [uid] } := by
  induction posts with
  | nil => simp [findPost] at hfind
  | cons q qs ih =>
    by_cases hq : q.id = pid
    · have hq' : (q.id == pid) = true := by simpa using hq
      have hqp : q = p := by
        have h0 := hfind
        simp [findPost, List.find?, hq'] at h0
        exact h0
      subst hqp
      simp [likePostLoop, hq, hmem, hcan, findPost, List.find?, hq']
    · have hq' : (q.id == pid) = false := by simpa using hq
      have hfind' : findPost pid qs = some p := by
        simpa [findPost, List.find?, hq'] using hfind
      have h := ih hfind'
      simp only [likePostLoop, hq, ite_false]
      exact ⟨h.1, h.2.1, by simpa [findPost, List.find?, hq'] using h.2.2⟩

/-- C2 counterexample: user `"u"` likes post `"p"` at day 0 (success,
likes 0 → 1) and calls `api_like_post` on the same post again later the
same day with no intervening unlike. The claim says the second call is
rejected with a rate-limit error and the likes count stays 1; in the
code the second call succeeds as a toggle-unlike, reporting
`liked = false` with the count back at 0. -/
theorem second_like_is_not_rejected :
    (api_like_post "u" "p" ⟨0, 10⟩
        (api_like_post "u" "p" ⟨0, 5⟩
          ⟨[{ id := "p", author_id := "a", likes := 0, liked_by := [] }], fun _ => []⟩).1).2 =
      .unliked 0 ∧
    ∃ p ∈ (api_like_post "u" "p" ⟨0, 10⟩
        (api_like_post "u" "p" ⟨0, 5⟩
          ⟨[{ id := "p", author_id := "a", likes := 0, liked_by := [] }], fun _ => []⟩).1).1.posts,
      p.likes = 0 := by
  constructor
  · decide
  · decide

/-- C2 (amended): a second `api_like_post` call by the same user on the
same post is *not* rejected: because the user is already in `liked_by`,
the toggle treats it as an unlike — it succeeds, decrements the likes
count, removes the user from `liked_by`, and clears the rate-limit
record (`del user_likes[uid][pid]`). The already-liked-today
`RateLimited` rejection lives only in `can_like_post`, which denies when
a same-day timestamp is recorded — a branch the toggle path reaches only
when the user is *not* in `liked_by`. -/
theorem second_like_same_day_toggles_unlike (uid pid : String) (now : Time)
    (s : LikeState) (p : Post) (ts : Time) :
    (findPost pid s.posts = some p → uid ∈ p.liked_by →
      (api_like_post uid pid now s).2 = .unliked (p.likes - 1) ∧
      findPost pid (api_like_post uid pid now s).1.posts =
        some { p with likes := p.likes - 1, liked_by := p.liked_by.erase uid } ∧
      (api_like_post uid pid now s).1.user_likes uid = dictErase (s.user_likes uid) pid)
  ∧ (dictLookup (s.user_likes uid) pid = some ts →
      Time.le (startOfDay now) ts = true →
      can_like_post uid pid now s.user_likes =
        (false, "Today's like, cannot be repeated")) := by
  constructor
  · intro hfind hmem
    have h := likePostLoop_unlike uid pid now s.user_likes s.posts p hfind hmem
    refine ⟨h.1, h.2.2, ?_⟩
    have : (api_like_post uid pid now s).1.user_likes =
        (likePostLoop uid pid now s.user_likes s.posts).2.1 := rfl
    rw [this, h.2.1, updFun_same]
  · intro hl hts
    simp [can_like_post, hl, hts]

/-- Witness for C2 (amended): user `"u"` is in `liked_by` of post `"p"`
with a same-day record; the call unlikes (2 → 1) and the rate check,
asked directly, would deny. -/
theorem second_like_toggles_witness :
    (api_like_post "u" "p" ⟨0, 10⟩
        ⟨[{ id := "p", author_id := "a", likes := 2, liked_by := ["u", "v"] }],
         fun x => if x = "u" then [("p", ⟨0, 5⟩)] else []⟩).2 = .unliked 1 ∧
    findPost "p" (api_like_post "u" "p" ⟨0, 10⟩
        ⟨[{ id := "p", author_id := "a", likes := 2, liked_by := ["u", "v"] }],
         fun x => if x = "u" then [("p", ⟨0, 5⟩)] else []⟩).1.posts =
      some { id := "p", author_id := "a", likes := 1, liked_by := ["v"] } ∧
    can_like_post "u" "p" ⟨0, 10⟩
        (fun x => if x = "u" then [("p", ⟨0, 5⟩)] else []) =
      (false, "Today's like, cannot be repeated") := by
  have h := second_like_same_day_toggles_unlike "u" "p" ⟨0, 10⟩
      ⟨[{ id := "p", author_id := "a", likes := 2, liked_by := ["u", "v"] }],
       fun x => if x = "u" then [("p", ⟨0, 5⟩)] else []⟩
      { id := "p", author_id := "a", likes := 2, liked_by := ["u", "v"] } ⟨0, 5⟩
  have h1 := h.1 (by decide) (by decide)
  refine ⟨h1.1, ?_, h.2 (by decide) (by decide)⟩
  simpa using h1.2.1

/-- C4: a user whose like-record holds at least 50 same-day timestamps
(the state left by 50 distinct successful likes that day — each success
stores one `(post_id, now)` entry) is rejected with the daily-limit
`RateLimited` message on a like attempt for a further, never-liked post,
and the state is left unchanged; the same attempt succeeds (as a like)
at any time on a later day, once every recorded timestamp lies on an
earlier day. -/
theorem daily_limit_51st_like (uid pid : String) (now nextDay : Time)
    (s : LikeState) (p : Post)
    (hfind : findPost pid s.posts = some p)
    (hnot : uid ∉ p.liked_by)
    (hnew : dictLookup (s.user_likes uid) pid = none)
    (h50 : 50 ≤ (s.user_likes uid).countP (fun e => Time.le (startOfDay now) e.2)) :
    ((api_like_post uid pid now s).2 = .limited "Daily like limit reached (50/day)" ∧
     (api_like_post uid pid now s).1.posts = s.posts ∧
     (api_like_post uid pid now s).1.user_likes = s.user_likes)
  ∧ ((∀ e ∈ s.user_likes uid, e.2.day < nextDay.day) →
      (api_like_post uid pid nextDay s).2 = .liked (p.likes + 1)) := by
  constructor
  · have hcan : can_like_post uid pid now s.user_likes =
        (false, "Daily like limit reached (50/day)") := by
      simp [can_like_post, hnew, h50]
    have h := likePostLoop_denied uid pid now s.user_likes s.posts p _ hfind hnot hcan
    exact ⟨by simp [api_like_post, h], by simp [api_like_post, h],
           by simp [api_like_post, h]⟩
  · intro hold
    have hcount : (s.user_likes uid).countP
        (fun e => Time.le (startOfDay nextDay) e.2) = 0 := by
      rw [List.countP_eq_zero]
      intro e he
      have hd := hold e he
      simp only [startOfDay_le_iff]
      omega
    have hcan : can_like_post uid pid nextDay s.user_likes = (true, "") := by
      simp [can_like_post, hnew, hcount]
    exact (likePostLoop_allowed uid pid nextDay s.user_likes s.posts p hfind hnot hcan).1

/-- A like-record with 50 same-day (day 0) entries for 50 distinct
posts. -/
def fiftyLikes : List (String × Time) :=
  (List.range 50).map (fun i => (toString i, (⟨0, i⟩ : Time)))

/-- Witness state for C4: post `"p"` exists and user `"u"` has already
liked 50 distinct posts on day 0. -/
def c4State : LikeState :=
  ⟨[{ id := "p", author_id := "a", likes := 3, liked_by := ["w"] }],
   fun u => if u = "u" then fiftyLikes else []⟩

/-- Witness for C4: the 51st like that day is rejected with the
daily-limit message; the same attempt on day 1 succeeds. -/
theorem daily_limit_51st_like_witness :
    (api_like_post "u" "p" ⟨0, 60⟩ c4State).2 =
      .limited "Daily like limit reached (50/day)" ∧
    (api_like_post "u" "p" ⟨1, 0⟩ c4State).2 = .liked 4 := by
  have h := daily_limit_51st_like "u" "p" ⟨0, 60⟩ ⟨1, 0⟩ c4State
      { id := "p", author_id := "a", likes := 3, liked_by := ["w"] }
      (by decide) (by decide) (by decide) (by decide)
  exact ⟨h.1.1, h.2 (by decide)⟩

theorem voteCompanyLoop_found (uid cid : String) (now : Time)
    (cv : String → List (String × Time)) (ach : String → Option Achievement)
    (companies : List Company) (c : Company)
    (hfind : findCompany cid companies = some c) :
    (voteCompanyLoop uid cid now cv ach companies).2.2.2 = .ok (c.votes + 1) ∧
    (voteCompanyLoop uid cid now cv ach companies).2.1 =
      updFun cv cid (dictInsert (cv cid) uid now) ∧
    findCompany cid (voteCompanyLoop uid cid now cv ach companies).1 =
      some { c with votes := c.votes + 1 } ∧
    (∀ x, x ≠ cid →
      findCompany x (voteCompanyLoop uid cid now cv ach companies).1 =
        findCompany x companies) := by
  induction companies with
  | nil => simp [findCompany] at hfind
  | cons q qs ih =>
    by_cases hq : q.id = cid
    · have hq' : (q.id == cid) = true := by simpa using hq
      have hqc : q = c := by
        have h0 := hfind
        simp [findCompany, List.find?, hq'] at h0
        exact h0
      subst hqc
      refine ⟨by simp [voteCompanyLoop, hq], by simp [voteCompanyLoop, hq], ?_, ?_⟩
      · simp [voteCompanyLoop, hq, findCompany, List.find?, hq']
      · intro x hx
        have hcx : (cid == x) = false := beq_eq_false_iff_ne.mpr (Ne.symm hx)
        simp [voteCompanyLoop, hq, findCompany, List.find?, hcx]
    · have hq' : (q.id == cid) = false := by simpa using hq
      have hfind' : findCompany cid qs = some c := by
        simpa [findCompany, List.find?, hq'] using hfind
      have h := ih hfind'
      simp only [voteCompanyLoop, hq, ite_false]
      refine ⟨h.1, h.2.1, by simpa [findCompany, List.find?, hq'] using h.2.2.1, ?_⟩
      intro x hx
      by_cases hqx : (q.id == x) = true
      · simp [findCompany, List.find?, hqx]
      · have hqx' : (q.id == x) = false := by simpa using hqx
        have := h.2.2.2 x hx
        simpa [findCompany, List.find?, hqx'] using this

theorem api_vote_company_denied (uid cid : String) (now : Time) (s : VoteState)
    (msg : String)
    (h : can_vote_for_company uid cid now s.company_votes = (false, msg)) :
    api_vote_company uid cid now s = (s, .denied msg) := by
  unfold api_vote_company
  rw [h]

theorem api_vote_company_allowed (uid cid : String) (now : Time) (s : VoteState)
    (h : can_vote_for_company uid cid now s.company_votes = (true, "")) :
    (api_vote_company uid cid now s).2 =
      (voteCompanyLoop uid cid now s.company_votes s.user_achievements s.companies).2.2.2 ∧
    (api_vote_company uid cid now s).1.companies =
      (voteCompanyLoop uid cid now s.company_votes s.user_achievements s.companies).1 ∧
    (api_vote_company uid cid now s).1.company_votes =
      (voteCompanyLoop uid cid now s.company_votes s.user_achievements s.companies).2.1 := by
  unfold api_vote_company
  rw [h]
  exact ⟨rfl, rfl, rfl⟩

/-- C5: with no same-day vote record for `(cid, uid)`, a `voteCompany`
call succeeds, bumps the company's votes and records `now`; a second
call by the same user for the same company at any time `now₂` of the
same day is rejected with the already-voted message and leaves the
state untouched; and a call for a *different* company `cid₂` succeeds
under only the per-pair freshness condition — no cap on the number of
distinct companies voted the same day, whatever other records exist. -/
theorem company_vote_once_per_day (uid cid cid2 : String) (now now2 : Time)
    (s : VoteState) (c c2 : Company)
    (hc : findCompany cid s.companies = some c)
    (hcan : can_vote_for_company uid cid now s.company_votes = (true, "")) :
    (api_vote_company uid cid now s).2 = .ok (c.votes + 1)
  ∧ dictLookup ((api_vote_company uid cid now s).1.company_votes cid) uid = some now
  ∧ (Time.le (startOfDay now2) now = true →
      api_vote_company uid cid now2 (api_vote_company uid cid now s).1 =
        ((api_vote_company uid cid now s).1,
         .denied "You already voted for this company today"))
  ∧ (cid2 ≠ cid →
      findCompany cid2 s.companies = some c2 →
      can_vote_for_company uid cid2 now2 s.company_votes = (true, "") →
      (api_vote_company uid cid2 now2 (api_vote_company uid cid now s).1).2 =
        .ok (c2.votes + 1)) := by
  have hloop := voteCompanyLoop_found uid cid now s.company_votes s.user_achievements
    s.companies c hc
  have hA := api_vote_company_allowed uid cid now s hcan
  have hr1 : (api_vote_company uid cid now s).2 = .ok (c.votes + 1) := by
    rw [hA.1]
    exact hloop.1
  have hcv1 : (api_vote_company uid cid now s).1.company_votes cid =
      dictInsert (s.company_votes cid) uid now := by
    rw [hA.2.2, hloop.2.1, updFun_same]
  have hrec : dictLookup ((api_vote_company uid cid now s).1.company_votes cid) uid =
      some now := by
    rw [hcv1]
    exact dictLookup_dictInsert _ _ _
  refine ⟨hr1, hrec, ?_, ?_⟩
  · intro hday
    apply api_vote_company_denied
    simp [can_vote_for_company, hcv1, dictLookup_dictInsert, hday]
  · intro hne hc2 hcan2
    have hcv2 : (api_vote_company uid cid now s).1.company_votes cid2 =
        s.company_votes cid2 := by
      rw [hA.2.2, hloop.2.1, updFun_ne _ _ _ _ hne]
    have hcan2' : can_vote_for_company uid cid2 now2
        (api_vote_company uid cid now s).1.company_votes = (true, "") := by
      unfold can_vote_for_company at hcan2 ⊢
      rw [hcv2]
      exact hcan2
    have hc2' : findCompany cid2 (api_vote_company uid cid now s).1.companies =
        some c2 := by
      rw [hA.2.1, hloop.2.2.2 cid2 hne]
      exact hc2
    have hB := api_vote_company_allowed uid cid2 now2 (api_vote_company uid cid now s).1 hcan2'
    rw [hB.1]
    exact (voteCompanyLoop_found uid cid2 now2 _ _ _ c2 hc2').1

/-- Witness state for C5: two seeded companies, no vote records, no
achievements. -/
def c5State : VoteState :=
  ⟨[{ id := "google", votes := 10 }, { id := "apple", votes := 5 }],
   fun _ => [], fun _ => none⟩

/-- Witness for C5: user `"u"` votes for `"google"` (10 → 11); a second
same-day vote for `"google"` is denied, while a same-day vote for
`"apple"` succeeds (5 → 6). -/
theorem company_vote_once_per_day_witness :
    (api_vote_company "u" "google" ⟨0, 10⟩ c5State).2 = .ok 11 ∧
    dictLookup ((api_vote_company "u" "google" ⟨0, 10⟩ c5State).1.company_votes "google")
      "u" = some ⟨0, 10⟩ ∧
    api_vote_company "u" "google" ⟨0, 20⟩ (api_vote_company "u" "google" ⟨0, 10⟩ c5State).1 =
      ((api_vote_company "u" "google" ⟨0, 10⟩ c5State).1,
       .denied "You already voted for this company today") ∧
    (api_vote_company "u" "apple" ⟨0, 20⟩ (api_vote_company "u" "google" ⟨0, 10⟩ c5State).1).2 =
      .ok 6 := by
  have h := company_vote_once_per_day "u" "google" "apple" ⟨0, 10⟩ ⟨0, 20⟩ c5State
      { id := "google", votes := 10 } { id := "apple", votes := 5 } (by decide) (by decide)
  exact ⟨h.1, h.2.1, h.2.2.1 (by decide), h.2.2.2 (by decide) (by decide) (by decide)⟩

theorem deletePostLoop_notFound (uid pid : String) (posts : List Post)
    (h : findPost pid posts = none) :
    deletePostLoop uid pid posts = none := by
  induction posts with
  | nil => rfl
  | cons q qs ih =>
    by_cases hq : q.id = pid
    · have hq' : (q.id == pid) = true := by simpa using hq
      simp [findPost, List.find?, hq'] at h
    · have hq' : (q.id == pid) = false := by simpa using hq
      have h' : findPost pid qs = none := by
        simpa [findPost, List.find?, hq'] using h
      simp [deletePostLoop, hq, ih h']

theorem deletePostLoop_notOwner (uid pid : String) (posts : List Post) (p : Post)
    (hfind : findPost pid posts = some p) (h : p.author_id ≠ uid) :
    deletePostLoop uid pid posts = some (.inr ()) := by
  induction posts with
  | nil => simp [findPost] at hfind
  | cons q qs ih =>
    by_cases hq : q.id = pid
    · have hq' : (q.id == pid) = true := by simpa using hq
      have hqp : q = p := by
        have h0 := hfind
        simp [findPost, List.find?, hq'] at h0
        exact h0
      subst hqp
      simp [deletePostLoop, hq, h]
    · have hq' : (q.id == pid) = false := by simpa using hq
      have hfind' : findPost pid qs = some p := by
        simpa [findPost, List.find?, hq'] using hfind
      simp [deletePostLoop, hq, ih hfind']

theorem deletePostLoop_owner (uid pid : String) (posts : List Post) (p : Post)
    (hfind : findPost pid posts = some p) (h : p.author_id = uid) :
    ∃ posts', deletePostLoop uid pid posts = some (.inl posts') ∧
      ((posts.map Post.id).Nodup → findPost pid posts' = none) := by
  induction posts with
  | nil => simp [findPost] at hfind
  | cons q qs ih =>
    by_cases hq : q.id = pid
    · have hq' : (q.id == pid) = true := by simpa using hq
      have hqp : q = p := by
        have h0 := hfind
        simp [findPost, List.find?, hq'] at h0
        exact h0
      subst hqp
      refine ⟨qs, by simp [deletePostLoop, hq, h], ?_⟩
      intro hnd
      have hnotin : pid ∉ qs.map Post.id := by
        rw [← hq]
        exact (List.nodup_cons.mp hnd).1
      rw [findPost, List.find?_eq_none]
      intro x hx
      simp only [beq_iff_eq]
      intro hxid
      exact hnotin (List.mem_map.mpr ⟨x, hx, hxid⟩)
    · have hq' : (q.id == pid) = false := by simpa using hq
      have hfind' : findPost pid qs = some p := by
        simpa [findPost, List.find?, hq'] using hfind
      obtain ⟨posts', hloop, hnone⟩ := ih hfind'
      refine ⟨q :: posts', by simp [deletePostLoop, hq, hloop], ?_⟩
      intro hnd
      have : findPost pid posts' = none := hnone (List.nodup_cons.mp hnd).2
      simpa [findPost, List.find?, hq'] using this

theorem purgeFavorites_clears (pid : String) (favs : List (String × List String))
    (h : ∀ e ∈ favs, e.2.Nodup) :
    ∀ e ∈ purgeFavorites pid favs, pid ∉ e.2 := by
  intro e he
  obtain ⟨a, ha, rfl⟩ := List.mem_map.mp he
  by_cases hm : pid ∈ a.2
  · simp only [hm, if_true, ite_true]
    intro hc
    exact (((h a ha).mem_erase_iff).mp hc).1 rfl
  · simp [hm]

/-- C8: `api_delete_post` fails and leaves the state untouched when the
post does not exist or the requester is not its author; when the
requester is the author it succeeds, the post is gone (post ids are
unique in the store), and the post id has been purged from every user's
favorite list (favorite lists are duplicate-free, as the toggle that
builds them guarantees), so no favorite references the deleted post. -/
theorem delete_post_owner_and_cascade (uid pid : String) (s : DeleteState) (p : Post) :
    (findPost pid s.posts = none →
      api_delete_post uid pid s = (s, false, "Post not found"))
  ∧ (findPost pid s.posts = some p → p.author_id ≠ uid →
      api_delete_post uid pid s = (s, false, "You can only delete your own posts"))
  ∧ (findPost pid s.posts = some p → p.author_id = uid →
      (api_delete_post uid pid s).2 = (true, "Post deleted successfully") ∧
      ((s.posts.map Post.id).Nodup →
        findPost pid (api_delete_post uid pid s).1.posts = none) ∧
      ((∀ e ∈ s.user_favorites, e.2.Nodup) →
        ∀ e ∈ (api_delete_post uid pid s).1.user_favorites, pid ∉ e.2)) := by
  refine ⟨?_, ?_, ?_⟩
  · intro h
    have := deletePostLoop_notFound uid pid s.posts h
    simp [api_delete_post, this]
  · intro hfind h
    have := deletePostLoop_notOwner uid pid s.posts p hfind h
    simp [api_delete_post, this]
  · intro hfind h
    obtain ⟨posts', hloop, hnone⟩ := deletePostLoop_owner uid pid s.posts p hfind h
    refine ⟨by simp [api_delete_post, hloop], ?_, ?_⟩
    · intro hnd
      have : (api_delete_post uid pid s).1.posts = posts' := by
        simp [api_delete_post, hloop]
      rw [this]
      exact hnone hnd
    · intro hfav
      have : (api_delete_post uid pid s).1.user_favorites =
          purgeFavorites pid s.user_favorites := by
        simp [api_delete_post, hloop]
      rw [this]
      exact purgeFavorites_clears pid s.user_favorites hfav

/-- Witness state for C8: two posts by different authors; two users'
favorite lists both reference post `"p1"`. -/
def c8State : DeleteState :=
  ⟨[{ id := "p1", author_id := "alice", likes := 0, liked_by := [] },
    { id := "p2", author_id := "bob", likes := 1, liked_by := ["x"] }],
   [("u1", ["p1", "p2"]), ("u2", ["p1"])]⟩

/-- Witness for C8: `"bob"` cannot delete `"alice"`'s post (state
unchanged); a missing post id fails; `"alice"` deletes `"p1"`, after
which no favorite list contains `"p1"`. -/
theorem delete_post_owner_and_cascade_witness :
    api_delete_post "bob" "p1" c8State = (c8State, false, "You can only delete your own posts") ∧
    api_delete_post "alice" "zzz" c8State = (c8State, false, "Post not found") ∧
    (api_delete_post "alice" "p1" c8State).2 = (true, "Post deleted successfully") ∧
    findPost "p1" (api_delete_post "alice" "p1" c8State).1.posts = none ∧
    (∀ e ∈ (api_delete_post "alice" "p1" c8State).1.user_favorites, "p1" ∉ e.2) := by
  have h1 := (delete_post_owner_and_cascade "bob" "p1" c8State
      { id := "p1", author_id := "alice", likes := 0, liked_by := [] }).2.1
      (by decide) (by decide)
  have h2 := (delete_post_owner_and_cascade "alice" "zzz" c8State
      { id := "p1", author_id := "alice", likes := 0, liked_by := [] }).1 (by decide)
  have h3 := (delete_post_owner_and_cascade "alice" "p1" c8State
      { id := "p1", author_id := "alice", likes := 0, liked_by := [] }).2.2
      (by decide) (by decide)
  exact ⟨h1, h2, h3.1, h3.2.1 (by decide), h3.2.2 (by decide)⟩

theorem splitChar_ne_nil (sep : Char) (l : List Char) : splitChar sep l ≠ [] := by
  cases l with
  | nil => simp [splitChar]
  | cons c cs =>
    simp only [splitChar]
    rcases h : splitChar sep cs with _ | ⟨part, parts⟩
    · simp
    · by_cases hc : c = sep <;> simp [hc]

theorem splitChar_no_sep (sep : Char) (l : List Char) :
    ∀ part ∈ splitChar sep l, sep ∉ part := by
  induction l with
  | nil =>
    intro part hp
    simp [splitChar] at hp
    subst hp
    simp
  | cons c cs ih =>
    intro part hp
    rcases h : splitChar sep cs with _ | ⟨p0, ps⟩
    · exact absurd h (splitChar_ne_nil sep cs)
    · simp only [splitChar, h] at hp
      by_cases hc : c = sep
      · rw [if_pos hc] at hp
        rcases List.mem_cons.mp hp with rfl | hp
        · simp
        · exact ih part (h ▸ hp)
      · rw [if_neg hc] at hp
        rcases List.mem_cons.mp hp with rfl | hp
        · intro hmem
          rcases List.mem_cons.mp hmem with rfl | hmem
          · exact hc rfl
          · exact ih p0 (by rw [h]; exact List.mem_cons_self _ _) hmem
        · exact ih part (by rw [h]; exact List.mem_cons_of_mem _ hp)

theorem mem_pySplitU_no_underscore (s part : String) (hp : part ∈ pySplitU s) :
    '_' ∉ part.data := by
  obtain ⟨l, hl, rfl⟩ := List.mem_map.mp hp
  exact splitChar_no_sep '_' s.data l hl

/-- C9: conversation membership in the unread-count and
conversation-list handlers is decided by `conv_id.split("_")`, and split
parts never contain an underscore; so any user whose own id contains an
underscore (e.g. the seeded `demo_user1`) never matches any conversation
key — both handlers report 0 unread messages and an empty conversation
list over *any* message store, even one holding unread messages
addressed to that user. -/
theorem underscore_uid_sees_no_messages (uid : String) (h : '_' ∈ uid.data)
    (s : MsgState) :
    api_messages_unread_count uid s = 0 ∧ api_get_conversations uid s = [] := by
  have hmem : ∀ cid : String, uid ∉ pySplitU cid := by
    intro cid hin
    exact mem_pySplitU_no_underscore cid uid hin h
  constructor
  · have hfold : ∀ (l : List (String × List Message)) (acc : Nat),
        l.foldl
          (fun total e =>
            if uid ∈ pySplitU e.1 then
              total + e.2.countP (fun m => m.receiver_id == uid && !m.read)
            else total) acc = acc := by
      intro l
      induction l with
      | nil => intro acc; rfl
      | cons e es ih =>
        intro acc
        simp only [List.foldl, hmem e.1, if_false, ite_false]
        exact ih acc
    exact hfold s.private_messages 0
  · have hconv : ∀ l : List (String × List Message),
        convLoop uid s.users_db l = [] := by
      intro l
      induction l with
      | nil => rfl
      | cons e es ih =>
        obtain ⟨cid, msgs⟩ := e
        simp only [convLoop, hmem cid, if_false, ite_false]
        exact ih
    simp [api_get_conversations, hconv, pySortBy]

/-- Witness state for C9: one conversation between the seeded demo user
`demo_user1` and `alice` (key built by `get_conversation_id`), holding
one unread message addressed to `demo_user1`. -/
def demoMsgState : MsgState :=
  ⟨[(get_conversation_id "demo_user1" "alice",
     [{ sender_id := "alice", receiver_id := "demo_user1", content := "hi",
        read := false, created_at := ⟨1, 0⟩ }])],
   []⟩

/-- Witness for C9: `demo_user1` contains an underscore; an unread
message addressed to them sits in the store, yet the unread count is 0
and the conversation list empty. -/
theorem underscore_uid_sees_no_messages_witness :
    ('_' ∈ ("demo_user1" : String).data) ∧
    (∃ e ∈ demoMsgState.private_messages, ∃ m ∈ e.2,
      m.receiver_id = "demo_user1" ∧ m.read = false) ∧
    api_messages_unread_count "demo_user1" demoMsgState = 0 ∧
    api_get_conversations "demo_user1" demoMsgState = [] := by
  have h := underscore_uid_sees_no_messages "demo_user1" (by decide) demoMsgState
  exact ⟨by decide, by decide, h.1, h.2⟩
